import Mathlib

/-!
Shallow embedding of the cancer genomics database system
(src/genomics_system.py) and verification of its specification.

Python dictionaries are modelled as association lists with the
insertion-order semantics of CPython dicts: updating an existing key
replaces the value in place, inserting a new key appends at the end,
and iteration (`values()`) follows list order.  The persisted JSON
file is modelled by the `Doc` type: `absent` is a missing file,
`notArray` is a document that fails to parse as an array of records
(json.load error, or a top-level value whose traversal raises before
any record is inserted), and `arr rs` is an array whose entries are
either structurally valid records (`RecEntry.good`) or records whose
field access raises (`RecEntry.bad`).  Exceptions are modelled by the
control flow of `loadLoop`: a bad record aborts the loop, keeping the
records inserted before it, exactly as the `except` clause in
`load_database` does.
-/

namespace Genomics

/-- Insertion into a CPython-style dict modelled as an association list:
an existing key is updated in place, a new key is appended. -/
def dinsert {V : Type} (m : List (String × V)) (k : String) (v : V) :
    List (String × V) :=
  if m.any (fun kv => kv.1 = k) then
    m.map (fun kv => if kv.1 = k then (k, v) else kv)
  else
    m ++ [(k, v)]

/-- Keyed lookup in the association-list model of a dict
(models `dict.get`, returning `none` when the key is absent). -/
def dlookup {V : Type} (k : String) (m : List (String × V)) : Option V :=
  (m.find? (fun kv => kv.1 = k)).map Prod.snd

/-- The class `GeneSequence` of the source: one gene observation. -/
structure GeneSequence where
  gene_id : String
  sequence : String
  mutation_status : Option String
deriving DecidableEq, Repr

/-- The set `set('ATCG')` of valid nucleotides from `validate_sequence`. -/
def valid_nucleotides : List Char := ['A', 'T', 'C', 'G']

/-- Embeds `GeneSequence.validate_sequence`:
`all(nucleotide in valid_nucleotides for nucleotide in self.sequence.upper())`,
with the uppercasing applied character by character. -/
def validate_sequence (g : GeneSequence) : Bool :=
  g.sequence.data.all (fun c => c.toUpper ∈ valid_nucleotides)

/-- Embeds the loop
`for pos, (ref, current) in enumerate(zip(reference_sequence, self.sequence))`
of `detect_mutation`, which collects a token `f"{ref}{pos+1}{current}"`
for every differing position.  The first argument is the running value
of `pos`. -/
def mutationList : Nat → List Char → List Char → List String
  | _, [], _ => []
  | _, _ :: _, [] => []
  | pos, r :: rs, c :: cs =>
    if r ≠ c then
      (String.singleton r ++ Nat.repr (pos + 1) ++ String.singleton c)
        :: mutationList (pos + 1) rs cs
    else
      mutationList (pos + 1) rs cs

/-- Embeds `GeneSequence.detect_mutation`. -/
def detect_mutation (g : GeneSequence) (reference_sequence : String) :
    Option String :=
  if g.sequence.length ≠ reference_sequence.length then
    some "Length mismatch with reference sequence"
  else
    let mutations := mutationList 0 reference_sequence.data g.sequence.data
    if mutations.isEmpty then none
    else some (String.intercalate "," mutations)

/-- The class `PatientRecord` of the source. -/
structure PatientRecord where
  patient_id : String
  name : String
  age : Int
  diagnosis : String
  gene_sequences : List (String × GeneSequence)
deriving DecidableEq, Repr

/-- Embeds the constructor `PatientRecord(patient_id, name, age, diagnosis)`
with its defaults and the empty gene map. -/
def PatientRecord.mk4 (patient_id : String) (name : String := "Unknown")
    (age : Int := 0) (diagnosis : String := "Unknown") : PatientRecord :=
  { patient_id := patient_id, name := name, age := age,
    diagnosis := diagnosis, gene_sequences := [] }

/-- Embeds `PatientRecord.validate_patient_data`. -/
def validate_patient_data (p : PatientRecord) : Bool :=
  if p.age < 0 || p.age > 150 then false
  else if p.patient_id = "" then false
  else true

/-- Embeds `PatientRecord.add_gene_sequence`:
`self.gene_sequences[gene_sequence.gene_id] = gene_sequence`. -/
def add_gene_sequence (p : PatientRecord) (g : GeneSequence) : PatientRecord :=
  { p with gene_sequences := dinsert p.gene_sequences g.gene_id g }

/-- One gene object of the persisted JSON document.  The keys
`sequence` may be absent (`load_database` uses `.get` with default);
`mutation_status` is read by direct indexing, so it is present here,
with `none` modelling a JSON null. -/
structure SavedGene where
  gene_id : String
  sequence : Option String
  mutation_status : Option String
deriving DecidableEq, Repr

/-- One patient object of the persisted JSON document.  All keys except
`patient_id` are read with `.get` and a default, so they are optional. -/
structure SavedPatient where
  patient_id : String
  name : Option String
  age : Option Int
  diagnosis : Option String
  gene_sequences : Option (List SavedGene)
deriving DecidableEq, Repr

/-- One entry of the persisted array: either a structurally valid patient
object, or an entry whose field access raises inside the load loop. -/
inductive RecEntry where
  | good (p : SavedPatient)
  | bad
deriving DecidableEq, Repr

/-- The persisted document at `database_path`. -/
inductive Doc where
  | absent
  | notArray
  | arr (rs : List RecEntry)
deriving DecidableEq, Repr

/-- The class `CancerGenomicsDatabase`: the in-memory patient dict and
the persisted file at `database_path`. -/
structure CancerGenomicsDatabase where
  patients : List (String × PatientRecord)
  disk : Doc
deriving DecidableEq, Repr

/-- Reconstruction of one `GeneSequence` from the document, as in
`load_database`: `gene_data['gene_id']`, `gene_data.get('sequence', '')`,
`gene_data['mutation_status']`. -/
def geneOfSaved (gd : SavedGene) : GeneSequence :=
  { gene_id := gd.gene_id, sequence := gd.sequence.getD "",
    mutation_status := gd.mutation_status }

/-- Reconstruction of one `PatientRecord` from the document, as in
`load_database`: the constructor with `.get` defaults, then
`add_gene_sequence` for each entry of `gene_sequences`. -/
def patientOfSaved (sp : SavedPatient) : PatientRecord :=
  (sp.gene_sequences.getD []).foldl
    (fun p gd => add_gene_sequence p (geneOfSaved gd))
    (PatientRecord.mk4 sp.patient_id (sp.name.getD "Unknown")
      (sp.age.getD 0) (sp.diagnosis.getD "Unknown"))

/-- The loop `for patient_data in data` of `load_database`.  A bad entry
raises; the exception is caught outside the loop, so the records already
inserted stay and the rest of the array is skipped. -/
def loadLoop : List RecEntry → List (String × PatientRecord) →
    List (String × PatientRecord)
  | [], ps => ps
  | RecEntry.bad :: _, ps => ps
  | RecEntry.good sp :: rest, ps =>
    loadLoop rest (dinsert ps sp.patient_id (patientOfSaved sp))

/-- Embeds `CancerGenomicsDatabase.load_database`: nothing happens when
the file is absent; a parse failure is caught with no record inserted;
otherwise the records are merged into the current dict in order. -/
def load_database (db : CancerGenomicsDatabase) : CancerGenomicsDatabase :=
  match db.disk with
  | Doc.absent => db
  | Doc.notArray => db
  | Doc.arr rs => { db with patients := loadLoop rs db.patients }

/-- Serialization of one gene, as written by `save_database`. -/
def savedOfGene (g : GeneSequence) : SavedGene :=
  { gene_id := g.gene_id, sequence := some g.sequence,
    mutation_status := g.mutation_status }

/-- Serialization of one patient, as written by `save_database`:
every key present, genes in the iteration order of the gene dict. -/
def savedOfPatient (p : PatientRecord) : SavedPatient :=
  { patient_id := p.patient_id, name := some p.name, age := some p.age,
    diagnosis := some p.diagnosis,
    gene_sequences :=
      some (p.gene_sequences.map (fun kv => savedOfGene kv.2)) }

/-- The array `data` built by `save_database` over `patients.values()`. -/
def serializePatients (ps : List (String × PatientRecord)) :
    List SavedPatient :=
  ps.map (fun kv => savedOfPatient kv.2)

/-- Embeds `CancerGenomicsDatabase.save_database`: the file is
overwritten in full with the serialized array. -/
def save_database (db : CancerGenomicsDatabase) : CancerGenomicsDatabase :=
  { db with
    disk := Doc.arr ((serializePatients db.patients).map RecEntry.good) }

/-- Embeds `CancerGenomicsDatabase.add_patient`: validation failure
returns false with no mutation; otherwise insert, save, return true. -/
def add_patient (db : CancerGenomicsDatabase) (p : PatientRecord) :
    Bool × CancerGenomicsDatabase :=
  if validate_patient_data p then
    (true, save_database
      { db with patients := dinsert db.patients p.patient_id p })
  else
    (false, db)

/-- Embeds `CancerGenomicsDatabase.get_patient`. -/
def get_patient (db : CancerGenomicsDatabase) (patient_id : String) :
    Option PatientRecord :=
  dlookup patient_id db.patients

/-- Embeds the Python `str.lower()` call character by character. -/
def pyLower (s : String) : String := ⟨s.data.map Char.toLower⟩

/-- Embeds `CancerGenomicsDatabase.query_by_diagnosis`:
`[p for p in self.patients.values() if p.diagnosis.lower() == diagnosis.lower()]`. -/
def query_by_diagnosis (db : CancerGenomicsDatabase) (diagnosis : String) :
    List PatientRecord :=
  (db.patients.map Prod.snd).filter
    (fun p => pyLower p.diagnosis = pyLower diagnosis)

/-- The reserved column names skipped by `load_from_csv`. -/
def reservedColumns : List String := ["patient_id", "name", "age", "diagnosis"]

/-- A parsed tabular source: the column names of the dataframe and, for
each row, the cells aligned with the columns; `none` is a missing value
(`pd.isna`), `some s` a present cell whose `str()` representation is `s`. -/
structure CsvTable where
  columns : List String
  rows : List (List (Option String))
deriving DecidableEq, Repr

/-- The inner column loop of `load_from_csv` building one patient from
one row: non-reserved columns with a non-missing cell become gene
records with empty sequence and the stringified cell as status. -/
def patientFromRow (cols : List String) (row : List (Option String))
    (pid : String) : PatientRecord :=
  (cols.zip row).foldl
    (fun p cell =>
      if cell.1 ∈ reservedColumns then p
      else
        match cell.2 with
        | none => p
        | some v =>
          add_gene_sequence p
            { gene_id := cell.1, sequence := "", mutation_status := some v })
    (PatientRecord.mk4 pid)

/-- The row loop `for index, row in df.iterrows()` of `load_from_csv`;
the first argument is the running row index. -/
def csvLoop (cols : List String) : Nat → List (List (Option String)) →
    List (String × PatientRecord) → List (String × PatientRecord)
  | _, [], ps => ps
  | idx, row :: rest, ps =>
    csvLoop cols (idx + 1) rest
      (dinsert ps (Nat.repr idx) (patientFromRow cols row (Nat.repr idx)))

/-- Embeds `CancerGenomicsDatabase.load_from_csv` on an already parsed
table: build one patient per row keyed by the stringified row index,
then persist via `save_database`. -/
def load_from_csv (db : CancerGenomicsDatabase) (t : CsvTable) :
    CancerGenomicsDatabase :=
  save_database { db with patients := csvLoop t.columns 0 t.rows db.patients }

/-- A store state freshly constructed before any load: empty patient
dict, arbitrary persisted file on disk. -/
def freshDb (d : Doc) : CancerGenomicsDatabase :=
  { patients := [], disk := d }

/-! Decimal decoding, used to show that distinct row indices produce
distinct stringified patient identifiers in `load_from_csv`. -/

/-- Numeric value of a decimal digit character. -/
def digitVal (c : Char) : Nat := c.toNat - '0'.toNat

/-- One step of reading a decimal numeral from the left. -/
def decStep (a : Nat) (c : Char) : Nat := 10 * a + digitVal c

/-- Value of a decimal numeral. -/
def decodeDec (l : List Char) : Nat := l.foldl decStep 0

/-- Number of digits that `Nat.toDigitsCore` emits for `n` in base 10. -/
def digitCount (n : Nat) : Nat :=
  if n < 10 then 1 else digitCount (n / 10) + 1
decreasing_by simp_wf; omega

theorem digitCount_small {n : Nat} (h : n < 10) : digitCount n = 1 := by
  rw [digitCount]; simp [h]

theorem digitCount_large {n : Nat} (h : ¬ n < 10) :
    digitCount n = digitCount (n / 10) + 1 := by
  rw [digitCount]; simp [h]

theorem digitVal_digitChar {r : Nat} (h : r < 10) :
    digitVal (Nat.digitChar r) = r := by
  interval_cases r <;> rfl

theorem toDigitsCore_foldl :
    ∀ (fuel n : Nat) (acc : List Char) (a : Nat), n < fuel →
      (Nat.toDigitsCore 10 fuel n acc).foldl decStep a =
        acc.foldl decStep (a * 10 ^ digitCount n + n) := by
  intro fuel
  induction fuel with
  | zero => intro n acc a h; omega
  | succ f ih =>
    intro n acc a h
    simp only [Nat.toDigitsCore]
    by_cases hd : n / 10 = 0
    · have hn : n < 10 := by omega
      rw [if_pos hd]
      have hmod : n % 10 = n := Nat.mod_eq_of_lt hn
      simp only [List.foldl_cons, decStep, hmod, digitVal_digitChar hn,
        digitCount_small hn, pow_one]
      congr 1
      ring
    · rw [if_neg hd]
      have hge : ¬ n < 10 := by omega
      have hlt : n / 10 < f := by
        have h1 : n / 10 < n := Nat.div_lt_self (by omega) (by omega)
        omega
      rw [ih (n / 10) _ a hlt]
      simp only [List.foldl_cons, decStep, digitVal_digitChar (Nat.mod_lt n (by omega)),
        digitCount_large hge]
      congr 1
      have key : ∀ b : Nat, 10 * (b + n / 10) + n % 10 = b * 10 + n := by
        intro b; omega
      rw [pow_succ, ← mul_assoc]
      exact key (a * 10 ^ digitCount (n / 10))

theorem decodeDec_repr (n : Nat) : decodeDec (Nat.repr n).data = n := by
  have h := toDigitsCore_foldl (n + 1) n [] 0 (Nat.lt_succ_self n)
  simpa [Nat.repr, Nat.toDigits, List.asString, decodeDec] using h

theorem nat_repr_injective : Function.Injective Nat.repr := by
  intro a b hab
  have : decodeDec (Nat.repr a).data = decodeDec (Nat.repr b).data := by rw [hab]
  rwa [decodeDec_repr, decodeDec_repr] at this

/-! Basic lemmas about the dict model. -/

theorem any_key_eq_true_iff {V : Type} (m : List (String × V)) (k : String) :
    (m.any (fun kv => kv.1 = k)) = true ↔ k ∈ m.map Prod.fst := by
  simp only [List.any_eq_true, decide_eq_true_eq, List.mem_map]

theorem dinsert_of_not_mem {V : Type} {m : List (String × V)} {k : String}
    (v : V) (h : k ∉ m.map Prod.fst) : dinsert m k v = m ++ [(k, v)] := by
  unfold dinsert
  rw [if_neg]
  intro hc
  exact h ((any_key_eq_true_iff m k).mp hc)

theorem dinsert_of_mem {V : Type} {m : List (String × V)} {k : String}
    (v : V) (h : k ∈ m.map Prod.fst) :
    dinsert m k v = m.map (fun kv => if kv.1 = k then (k, v) else kv) := by
  unfold dinsert
  rw [if_pos ((any_key_eq_true_iff m k).mpr h)]

theorem keys_dinsert_of_mem {V : Type} {m : List (String × V)} {k : String}
    (v : V) (h : k ∈ m.map Prod.fst) :
    (dinsert m k v).map Prod.fst = m.map Prod.fst := by
  rw [dinsert_of_mem v h, List.map_map]
  apply List.map_congr_left
  intro kv _
  by_cases hk : kv.1 = k <;> simp [hk]

theorem keys_dinsert_of_not_mem {V : Type} {m : List (String × V)} {k : String}
    (v : V) (h : k ∉ m.map Prod.fst) :
    (dinsert m k v).map Prod.fst = m.map Prod.fst ++ [k] := by
  rw [dinsert_of_not_mem v h]; simp

theorem nodup_keys_dinsert {V : Type} {m : List (String × V)} {k : String}
    (v : V) (h : (m.map Prod.fst).Nodup) :
    ((dinsert m k v).map Prod.fst).Nodup := by
  by_cases hk : k ∈ m.map Prod.fst
  · rw [keys_dinsert_of_mem v hk]; exact h
  · rw [keys_dinsert_of_not_mem v hk]
    rw [List.nodup_append]
    refine ⟨h, List.nodup_singleton k, ?_⟩
    intro a ha hak
    rw [List.mem_singleton] at hak
    subst hak
    exact hk ha

theorem dlookup_nil {V : Type} (k : String) : dlookup k ([] : List (String × V)) = none := rfl

theorem dlookup_cons {V : Type} (k : String) (a : String × V) (m : List (String × V)) :
    dlookup k (a :: m) = if a.1 = k then some a.2 else dlookup k m := by
  unfold dlookup
  by_cases h : a.1 = k <;> simp [List.find?_cons, h]

theorem dlookup_append {V : Type} (k : String) (m₁ m₂ : List (String × V)) :
    dlookup k (m₁ ++ m₂) = (dlookup k m₁).or (dlookup k m₂) := by
  induction m₁ with
  | nil => simp [dlookup_nil]
  | cons a m₁ ih =>
    rw [List.cons_append, dlookup_cons, dlookup_cons]
    by_cases h : a.1 = k <;> simp [h, ih]

theorem dlookup_map_replace_ne {V : Type} {k k' : String} (v : V)
    (m : List (String × V)) (h : k ≠ k') :
    dlookup k (m.map (fun kv => if kv.1 = k' then (k', v) else kv)) =
      dlookup k m := by
  induction m with
  | nil => rfl
  | cons a m ih =>
    rw [List.map_cons, dlookup_cons, dlookup_cons]
    have hne : ¬ (k' = k) := fun hc => h hc.symm
    by_cases ha : a.1 = k'
    · simp [ha, hne, ih]
    · by_cases hk : a.1 = k <;> simp [ha, hk, ih, h]

theorem dlookup_map_replace_mem {V : Type} {k' : String} (v : V)
    (m : List (String × V)) (h : k' ∈ m.map Prod.fst) :
    dlookup k' (m.map (fun kv => if kv.1 = k' then (k', v) else kv)) = some v := by
  induction m with
  | nil => simp at h
  | cons a m ih =>
    rw [List.map_cons, dlookup_cons]
    by_cases ha : a.1 = k'
    · simp [ha]
    · rw [if_neg ha]
      simp only [ha, if_neg]
      rw [List.map_cons] at h
      rcases List.mem_cons.mp h with h1 | h2
      · exact absurd h1.symm ha
      · exact ih h2

theorem dlookup_dinsert {V : Type} (m : List (String × V)) (k k' : String) (v : V) :
    dlookup k (dinsert m k' v) = if k = k' then some v else dlookup k m := by
  by_cases hmem : k' ∈ m.map Prod.fst
  · rw [dinsert_of_mem v hmem]
    by_cases hk : k = k'
    · subst hk; rw [if_pos rfl]; exact dlookup_map_replace_mem v m hmem
    · rw [if_neg hk]; exact dlookup_map_replace_ne v m hk
  · rw [dinsert_of_not_mem v hmem, dlookup_append, dlookup_cons, dlookup_nil]
    by_cases hk : k = k'
    · subst hk
      have hnil : dlookup k m = none := by
        unfold dlookup
        rw [List.find?_eq_none.mpr]
        · rfl
        · intro kv hkv
          simp only [decide_eq_true_eq]
          intro hc
          exact hmem (hc ▸ List.mem_map_of_mem Prod.fst hkv)
      rw [hnil]
      simp
    · have hne : ¬ ((k', v).1 = k) := fun hc => hk hc.symm
      rw [if_neg hne, if_neg hk]
      cases dlookup k m <;> rfl

theorem dlookup_eq_some_mem {V : Type} {k : String} {v : V} {m : List (String × V)}
    (h : dlookup k m = some v) : (k, v) ∈ m := by
  unfold dlookup at h
  cases hf : m.find? (fun kv => kv.1 = k) with
  | none => rw [hf] at h; simp at h
  | some kv =>
    rw [hf] at h
    simp at h
    have hmem := List.mem_of_find?_eq_some hf
    have hp := List.find?_some hf
    simp only [decide_eq_true_eq] at hp
    have : kv = (k, v) := by
      cases kv
      simp only at hp h
      simp [hp, h]
    exact this ▸ hmem

theorem mem_dlookup {V : Type} {k : String} {v : V} {m : List (String × V)}
    (hnd : (m.map Prod.fst).Nodup) (h : (k, v) ∈ m) : dlookup k m = some v := by
  induction m with
  | nil => simp at h
  | cons a m ih =>
    rw [List.map_cons, List.nodup_cons] at hnd
    rw [dlookup_cons]
    rcases List.mem_cons.mp h with h1 | h2
    · subst h1; simp
    · have hne : a.1 ≠ k := by
        intro hc
        exact hnd.1 (hc ▸ List.mem_map_of_mem Prod.fst h2)
      rw [if_neg hne]
      exact ih hnd.2 h2

/-! Round-trip machinery for save and load. -/

theorem geneOfSaved_savedOfGene (g : GeneSequence) :
    geneOfSaved (savedOfGene g) = g := rfl

theorem foldl_add_gene (gds : List SavedGene) : ∀ (p : PatientRecord),
    gds.foldl (fun q gd => add_gene_sequence q (geneOfSaved gd)) p =
      { p with gene_sequences :=
          (gds.foldl (fun m gd => dinsert m (geneOfSaved gd).gene_id (geneOfSaved gd))
            p.gene_sequences) } := by
  induction gds with
  | nil => intro p; rfl
  | cons gd rest ih =>
    intro p
    rw [List.foldl_cons, List.foldl_cons, ih]
    rfl

theorem foldl_dinsert_append {V α : Type} (key : α → String) (val : α → V) :
    ∀ (l : List α) (acc : List (String × V)),
      (l.map key).Nodup →
      (∀ a ∈ l, key a ∉ acc.map Prod.fst) →
      l.foldl (fun m a => dinsert m (key a) (val a)) acc =
        acc ++ l.map (fun a => (key a, val a)) := by
  intro l
  induction l with
  | nil => intro acc _ _; simp
  | cons a rest ih =>
    intro acc hnd hfresh
    rw [List.map_cons, List.nodup_cons] at hnd
    have hfa : key a ∉ acc.map Prod.fst := hfresh a (List.mem_cons_self a rest)
    have hfresh2 : ∀ b ∈ rest,
        key b ∉ (acc ++ [(key a, val a)]).map Prod.fst := by
      intro b hb
      rw [List.map_append, List.mem_append]
      rintro (hc | hc)
      · exact hfresh b (List.mem_cons_of_mem a hb) hc
      · simp only [List.map_cons, List.map_nil, List.mem_singleton] at hc
        exact hnd.1 (hc ▸ List.mem_map_of_mem key hb)
    rw [List.foldl_cons, dinsert_of_not_mem _ hfa, ih (acc ++ [(key a, val a)]) hnd.2 hfresh2]
    simp

theorem foldl_dinsert_genes (l : List SavedGene) (acc : List (String × GeneSequence))
    (h1 : (l.map (fun gd => (geneOfSaved gd).gene_id)).Nodup)
    (h2 : ∀ gd ∈ l, (geneOfSaved gd).gene_id ∉ acc.map Prod.fst) :
    l.foldl (fun m gd => dinsert m (geneOfSaved gd).gene_id (geneOfSaved gd)) acc =
      acc ++ l.map (fun gd => ((geneOfSaved gd).gene_id, geneOfSaved gd)) :=
  foldl_dinsert_append (fun gd => (geneOfSaved gd).gene_id) geneOfSaved l acc h1 h2

/-- Well-formedness of the gene dict of one patient: as in every state the
source program can build, each key is the gene identifier of its record
and keys are unique (Python dict keys). -/
abbrev WFP (p : PatientRecord) : Prop :=
  (∀ kv ∈ p.gene_sequences, kv.1 = kv.2.gene_id) ∧
    (p.gene_sequences.map Prod.fst).Nodup

/-- Well-formedness of a store dict: unique keys, each key the patient
identifier of its record, and well-formed gene dicts. -/
abbrev WFStore (ps : List (String × PatientRecord)) : Prop :=
  (∀ kv ∈ ps, kv.1 = kv.2.patient_id ∧ WFP kv.2) ∧ (ps.map Prod.fst).Nodup

theorem patientOfSaved_savedOfPatient (p : PatientRecord) (h : WFP p) :
    patientOfSaved (savedOfPatient p) = p := by
  obtain ⟨hk, hnd⟩ := h
  have hmapkeys : (p.gene_sequences.map (fun kv => savedOfGene kv.2)).map
      (fun gd => (geneOfSaved gd).gene_id) = p.gene_sequences.map Prod.fst := by
    rw [List.map_map]
    apply List.map_congr_left
    intro kv hkv
    simp only [Function.comp, geneOfSaved_savedOfGene]
    exact (hk kv hkv).symm
  have hmain := foldl_dinsert_genes
    (p.gene_sequences.map (fun kv => savedOfGene kv.2)) []
    (by rw [hmapkeys]; exact hnd) (by intro gd _; simp)
  simp only [patientOfSaved, savedOfPatient, PatientRecord.mk4, Option.getD_some]
  rw [foldl_add_gene, hmain]
  simp only [List.nil_append, List.map_map]
  have hmap2 : p.gene_sequences.map
      ((fun gd => ((geneOfSaved gd).gene_id, geneOfSaved gd)) ∘
        (fun kv => savedOfGene kv.2)) = p.gene_sequences := by
    have h2 := List.map_congr_left (l := p.gene_sequences)
      (f := (fun gd => ((geneOfSaved gd).gene_id, geneOfSaved gd)) ∘
        (fun kv => savedOfGene kv.2))
      (g := id)
      (fun kv hkv => by
        simp only [Function.comp, geneOfSaved_savedOfGene, id]
        rw [← hk kv hkv])
    rw [h2, List.map_id]
  rw [hmap2]

theorem loadLoop_good_append :
    ∀ (sps : List SavedPatient) (acc : List (String × PatientRecord)),
      (sps.map SavedPatient.patient_id).Nodup →
      (∀ sp ∈ sps, sp.patient_id ∉ acc.map Prod.fst) →
      loadLoop (sps.map RecEntry.good) acc =
        acc ++ sps.map (fun sp => (sp.patient_id, patientOfSaved sp)) := by
  intro sps
  induction sps with
  | nil => intro acc _ _; simp [loadLoop]
  | cons sp rest ih =>
    intro acc hnd hfresh
    rw [List.map_cons, List.nodup_cons] at hnd
    rw [List.map_cons]
    show loadLoop (RecEntry.good sp :: rest.map RecEntry.good) acc = _
    rw [loadLoop, dinsert_of_not_mem _ (hfresh sp (List.mem_cons_self sp rest))]
    have hfresh2 : ∀ q ∈ rest,
        q.patient_id ∉ (acc ++ [(sp.patient_id, patientOfSaved sp)]).map Prod.fst := by
      intro q hq
      rw [List.map_append, List.mem_append]
      rintro (hc | hc)
      · exact hfresh q (List.mem_cons_of_mem sp hq) hc
      · simp only [List.map_cons, List.map_nil, List.mem_singleton] at hc
        exact hnd.1 (hc ▸ List.mem_map_of_mem SavedPatient.patient_id hq)
    rw [ih (acc ++ [(sp.patient_id, patientOfSaved sp)]) hnd.2 hfresh2]
    simp

/-! Concrete sample data used by the closed witness theorems. -/

/-- Sample gene record. -/
def gw : GeneSequence := { gene_id := "BRCA1", sequence := "ATCG", mutation_status := none }

/-- Sample patient with one gene whose mutation status is null. -/
def pw : PatientRecord :=
  { patient_id := "P1", name := "Alice", age := 42, diagnosis := "Breast Cancer",
    gene_sequences := [("BRCA1", gw)] }

/-- Sample patient with an empty gene map. -/
def pw2 : PatientRecord :=
  { patient_id := "P2", name := "Bob", age := 50, diagnosis := "Unknown",
    gene_sequences := [] }

/-- Sample patient failing validation (empty identifier). -/
def pbad : PatientRecord :=
  { patient_id := "", name := "X", age := 10, diagnosis := "D", gene_sequences := [] }

/-- Sample store with two patients. -/
def Sw : CancerGenomicsDatabase :=
  { patients := [("P1", pw), ("P2", pw2)], disk := Doc.absent }

/-- Claim C1: saving any well-formed store state and loading the written
document into a fresh empty store reconstructs the same patient mapping,
field for field, gene records, empty gene maps and null mutation status
included. -/
theorem save_load_roundtrip (S : CancerGenomicsDatabase) (h : WFStore S.patients) :
    (load_database (freshDb (save_database S).disk)).patients = S.patients := by
  obtain ⟨hkv, hnd⟩ := h
  show loadLoop ((serializePatients S.patients).map RecEntry.good) [] = S.patients
  rw [loadLoop_good_append]
  · rw [List.nil_append]
    unfold serializePatients
    rw [List.map_map]
    have h2 := List.map_congr_left (l := S.patients)
      (f := (fun sp => (sp.patient_id, patientOfSaved sp)) ∘
        (fun kv => savedOfPatient kv.2))
      (g := id)
      (fun kv hkv2 => by
        obtain ⟨hpid, hwfp⟩ := hkv kv hkv2
        simp only [Function.comp, id]
        rw [patientOfSaved_savedOfPatient kv.2 hwfp]
        show (kv.2.patient_id, kv.2) = kv
        rw [← hpid])
    rw [h2, List.map_id]
  · unfold serializePatients
    rw [List.map_map]
    have h3 : S.patients.map
        (SavedPatient.patient_id ∘ (fun kv => savedOfPatient kv.2)) =
          S.patients.map Prod.fst := by
      apply List.map_congr_left
      intro kv hkv2
      simp only [Function.comp]
      exact ((hkv kv hkv2).1).symm
    rw [h3]
    exact hnd
  · intro sp _
    simp

/-- Witness for C1 at a concrete store holding a patient with one gene
record with null mutation status and a patient with an empty gene map. -/
theorem save_load_roundtrip_witness :
    WFStore Sw.patients ∧
      (load_database (freshDb (save_database Sw).disk)).patients = Sw.patients :=
  ⟨by decide, save_load_roundtrip Sw (by decide)⟩

/-- Claim C2: add_patient returns false and leaves the store unchanged on
validation failure; on success it inserts or overwrites the entry at the
patient identifier, persists the serialized store and returns true; and
validation rejects age -1, age 151 and the empty identifier while
accepting any non-empty identifier with age between 0 and 150. -/
theorem add_patient_spec (db : CancerGenomicsDatabase) (p : PatientRecord) :
    (validate_patient_data p = false → add_patient db p = (false, db)) ∧
    (validate_patient_data p = true →
      (add_patient db p).1 = true ∧
      (add_patient db p).2.patients = dinsert db.patients p.patient_id p ∧
      (add_patient db p).2.disk = Doc.arr
        ((serializePatients (dinsert db.patients p.patient_id p)).map RecEntry.good)) ∧
    (p.age = -1 ∨ p.age = 151 ∨ p.patient_id = "" → validate_patient_data p = false) ∧
    (p.patient_id ≠ "" ∧ 0 ≤ p.age ∧ p.age ≤ 150 → validate_patient_data p = true) := by
  refine ⟨?_, ?_, ?_, ?_⟩
  · intro hv
    simp [add_patient, hv]
  · intro hv
    refine ⟨by simp [add_patient, hv], by simp [add_patient, hv, save_database], ?_⟩
    simp [add_patient, hv, save_database]
  · rintro (h | h | h) <;> simp [validate_patient_data, h]
  · rintro ⟨h1, h2, h3⟩
    unfold validate_patient_data
    rw [if_neg (by simp; omega), if_neg h1]

/-- Witness for C2: the empty identifier is rejected without mutation and
a valid patient is accepted. -/
theorem add_patient_spec_witness :
    add_patient (freshDb Doc.absent) pbad = (false, freshDb Doc.absent) ∧
      (add_patient (freshDb Doc.absent) pw).1 = true := by
  refine ⟨?_, ?_⟩
  · exact (add_patient_spec (freshDb Doc.absent) pbad).1
      ((add_patient_spec (freshDb Doc.absent) pbad).2.2.1 (Or.inr (Or.inr rfl)))
  · exact ((add_patient_spec (freshDb Doc.absent) pw).2.1 (by decide)).1

/-- Claim C5: validate_sequence is true exactly when every character of
the sequence, after uppercasing, is one of A, T, C, G; the empty
sequence validates, mixed-case sequences over the alphabet validate,
and any character outside the alphabet refutes validation. -/
theorem validate_sequence_spec (g : GeneSequence) :
    (validate_sequence g = true ↔
      ∀ c ∈ g.sequence.data, c.toUpper ∈ valid_nucleotides) ∧
    (g.sequence = "" → validate_sequence g = true) ∧
    ((∀ c ∈ g.sequence.data,
        c ∈ (['A', 'T', 'C', 'G', 'a', 't', 'c', 'g'] : List Char)) →
      validate_sequence g = true) ∧
    (∀ c ∈ g.sequence.data, c.toUpper ∉ valid_nucleotides →
      validate_sequence g = false) := by
  have hiff : validate_sequence g = true ↔
      ∀ c ∈ g.sequence.data, c.toUpper ∈ valid_nucleotides := by
    unfold validate_sequence
    simp only [List.all_eq_true, decide_eq_true_eq]
  refine ⟨hiff, ?_, ?_, ?_⟩
  · intro h
    rw [hiff]
    intro c hc
    rw [h] at hc
    exact absurd hc (List.not_mem_nil c)
  · intro h
    rw [hiff]
    intro c hc
    have hm := h c hc
    fin_cases hm <;> decide
  · intro c hc hnc
    cases hb : validate_sequence g with
    | false => rfl
    | true => exact absurd ((hiff.mp hb) c hc) hnc

/-- Witness for C5: a mixed-case sequence over the alphabet validates. -/
theorem validate_sequence_spec_witness :
    validate_sequence { gene_id := "g", sequence := "atCG", mutation_status := none } = true :=
  (validate_sequence_spec
    { gene_id := "g", sequence := "atCG", mutation_status := none }).2.2.1 (by decide)

/-- Claim C6: query_by_diagnosis returns exactly the patients whose
diagnosis matches the query case-insensitively, as a sublist of the
store iteration order; in particular a patient diagnosed with the string
Breast Cancer is returned when querying the lowercased form. -/
theorem query_by_diagnosis_spec (db : CancerGenomicsDatabase) (d : String) :
    (∀ p, p ∈ query_by_diagnosis db d ↔
      p ∈ db.patients.map Prod.snd ∧ pyLower p.diagnosis = pyLower d) ∧
    (query_by_diagnosis db d).Sublist (db.patients.map Prod.snd) ∧
    (∀ p ∈ db.patients.map Prod.snd, p.diagnosis = "Breast Cancer" →
      p ∈ query_by_diagnosis db "breast cancer") := by
  refine ⟨?_, ?_, ?_⟩
  · intro p
    unfold query_by_diagnosis
    rw [List.mem_filter]
    simp only [decide_eq_true_eq]
  · exact List.filter_sublist _
  · intro p hp hdiag
    unfold query_by_diagnosis
    rw [List.mem_filter]
    refine ⟨hp, ?_⟩
    rw [hdiag]
    decide

/-- Witness for C6: the sample Breast Cancer patient is found by the
lowercase query. -/
theorem query_by_diagnosis_spec_witness :
    pw ∈ query_by_diagnosis Sw "breast cancer" :=
  (query_by_diagnosis_spec Sw "breast cancer").2.2 pw (by decide) rfl

/-- Claim C8: on sequences of differing length detect_mutation returns
the literal length-mismatch marker string. -/
theorem detect_mutation_length_mismatch (g : GeneSequence) (ref : String)
    (h : g.sequence.length ≠ ref.length) :
    detect_mutation g ref = some "Length mismatch with reference sequence" := by
  unfold detect_mutation
  rw [if_pos h]

/-- Witness for C8 at a two-character sequence against a four-character
reference. -/
theorem detect_mutation_length_mismatch_witness :
    detect_mutation { gene_id := "g", sequence := "AT", mutation_status := none } "ATCG" =
      some "Length mismatch with reference sequence" :=
  detect_mutation_length_mismatch
    { gene_id := "g", sequence := "AT", mutation_status := none } "ATCG" (by decide)

/-- Specification-side description of the mutation tokens: one token per
1-indexed position at which the reference and the current sequence
differ, in left-to-right position order. -/
def mutationTokensSpec (ref cur : List Char) : List String :=
  (List.range ref.length).filterMap fun i =>
    match ref[i]?, cur[i]? with
    | some r, some c =>
      if r ≠ c then
        some (String.singleton r ++ Nat.repr (i + 1) ++ String.singleton c)
      else none
    | _, _ => none

theorem mutationList_eq_tokensFrom :
    ∀ (ref cur : List Char) (n : Nat), ref.length = cur.length →
      mutationList n ref cur = (List.range ref.length).filterMap (fun i =>
        match ref[i]?, cur[i]? with
        | some r, some c =>
          if r ≠ c then
            some (String.singleton r ++ Nat.repr (n + i + 1) ++ String.singleton c)
          else none
        | _, _ => none) := by
  intro ref
  induction ref with
  | nil =>
    intro cur n h
    simp [mutationList]
  | cons r rs ih =>
    intro cur n h
    cases cur with
    | nil => simp at h
    | cons c cs =>
      simp only [List.length_cons] at h
      have h2 : rs.length = cs.length := by omega
      rw [List.length_cons, List.range_succ_eq_map, List.filterMap_cons,
        List.filterMap_map]
      have hcomp : ∀ i ∈ List.range rs.length,
          ((fun i =>
            match (r :: rs)[i]?, (c :: cs)[i]? with
            | some x, some y =>
              if x ≠ y then
                some (String.singleton x ++ Nat.repr (n + i + 1) ++ String.singleton y)
              else none
            | _, _ => none) ∘ Nat.succ) i =
          (fun i =>
            match rs[i]?, cs[i]? with
            | some x, some y =>
              if x ≠ y then
                some (String.singleton x ++ Nat.repr ((n + 1) + i + 1) ++ String.singleton y)
              else none
            | _, _ => none) i := by
        intro i _
        simp only [Function.comp, Nat.succ_eq_add_one, List.getElem?_cons_succ]
        have harg : n + (i + 1) + 1 = (n + 1) + i + 1 := by omega
        rw [harg]
      rw [List.filterMap_congr hcomp, ← ih cs (n + 1) h2]
      simp only [List.getElem?_cons_zero]
      simp only [mutationList]
      have harg0 : n + 0 + 1 = n + 1 := by omega
      rw [harg0]
      by_cases hrc : r = c
      · simp [hrc]
      · simp [hrc]

theorem mutationList_zero_eq_spec (ref cur : List Char)
    (h : ref.length = cur.length) :
    mutationList 0 ref cur = mutationTokensSpec ref cur := by
  rw [mutationList_eq_tokensFrom ref cur 0 h]
  unfold mutationTokensSpec
  apply List.filterMap_congr
  intro i _
  have harg : 0 + i + 1 = i + 1 := by omega
  rw [harg]

theorem mutationList_eq_nil_iff :
    ∀ (ref cur : List Char) (n : Nat), ref.length = cur.length →
      (mutationList n ref cur = [] ↔ ref = cur) := by
  intro ref
  induction ref with
  | nil =>
    intro cur n h
    cases cur with
    | nil => simp [mutationList]
    | cons c cs => simp at h
  | cons r rs ih =>
    intro cur n h
    cases cur with
    | nil => simp at h
    | cons c cs =>
      simp only [List.length_cons] at h
      have h2 : rs.length = cs.length := by omega
      simp only [mutationList]
      by_cases hrc : r = c
      · subst hrc
        rw [if_neg (by simp)]
        rw [ih cs (n + 1) h2]
        simp
      · rw [if_pos hrc]
        simp [hrc]

/-- Claim C4: for equal-length sequences, detect_mutation returns none
exactly when the current sequence equals the reference, and otherwise
the comma-joined tokens of the 1-indexed differing positions, in
left-to-right order. -/
theorem detect_mutation_spec (g : GeneSequence) (ref : String)
    (h : g.sequence.length = ref.length) :
    (detect_mutation g ref = none ↔ g.sequence = ref) ∧
    (g.sequence ≠ ref → detect_mutation g ref =
      some (String.intercalate "," (mutationTokensSpec ref.data g.sequence.data))) := by
  have hlen : ref.data.length = g.sequence.data.length := h.symm
  have hgoal : detect_mutation g ref =
      (if (mutationList 0 ref.data g.sequence.data).isEmpty then none
       else some (String.intercalate "," (mutationList 0 ref.data g.sequence.data))) := by
    unfold detect_mutation
    rw [if_neg (fun hc => hc h)]
  have hnil := mutationList_eq_nil_iff ref.data g.sequence.data 0 hlen
  have hspec := mutationList_zero_eq_spec ref.data g.sequence.data hlen
  rw [hgoal]
  constructor
  · by_cases he : mutationList 0 ref.data g.sequence.data = []
    · have hseq : g.sequence = ref := (String.ext (hnil.mp he)).symm
      rw [he]
      simp [hseq]
    · have hseq : ¬ (g.sequence = ref) :=
        fun hc => he (hnil.mpr (congrArg String.data hc).symm)
      simp [List.isEmpty_eq_false.mpr he, hseq]
  · intro hne
    have he : ¬ (mutationList 0 ref.data g.sequence.data = []) :=
      fun hc => hne ((String.ext (hnil.mp hc)).symm)
    rw [List.isEmpty_eq_false.mpr he]
    rw [hspec]
    simp

/-- Witness for C4: reference ATCG against current ATGG yields the
single token C3G. -/
theorem detect_mutation_spec_witness :
    detect_mutation { gene_id := "g", sequence := "ATGG", mutation_status := none } "ATCG" =
      some (String.intercalate ","
        (mutationTokensSpec "ATCG".data "ATGG".data)) ∧
    detect_mutation { gene_id := "g", sequence := "ATGG", mutation_status := none } "ATCG" =
      some "C3G" := by
  refine ⟨?_, by decide⟩
  exact (detect_mutation_spec
    { gene_id := "g", sequence := "ATGG", mutation_status := none } "ATCG"
    (by decide)).2 (by decide)

/-! Soft failure of load_database on malformed documents (claim C3). -/

/-- Sample structurally valid saved patient. -/
def spw : SavedPatient :=
  { patient_id := "P0", name := some "A", age := some (1 : Int),
    diagnosis := some "D", gene_sequences := some [] }

/-- Document that parses as an array whose first record is valid and
whose second record is structurally invalid. -/
def malformedDoc : Doc := Doc.arr [RecEntry.good spw, RecEntry.bad]

/-- Counterexample to claim C3: an existing malformed document, namely a
parsed array holding one valid record followed by a structurally invalid
one, loads into an empty store without error but leaves the store
non-empty, against the claimed empty result. -/
theorem load_malformed_counterexample :
    (load_database (freshDb malformedDoc)).patients ≠ [] := by decide

/-- Claim C3 as amended: loading a document that fails to parse, or whose
first record is already structurally invalid, leaves an empty store
empty and usable by later add_patient calls; when a structurally invalid
record comes later, the records before it are retained, so the store is
not empty in general. -/
theorem load_malformed_amended (db : CancerGenomicsDatabase)
    (h0 : db.patients = [])
    (hmal : db.disk = Doc.notArray ∨
      ∃ rs, db.disk = Doc.arr (RecEntry.bad :: rs)) :
    (load_database db).patients = [] ∧
    ∀ p, validate_patient_data p = true →
      (add_patient (load_database db) p).1 = true ∧
      (add_patient (load_database db) p).2.patients = [(p.patient_id, p)] := by
  have hload : (load_database db).patients = [] := by
    rcases hmal with hm | ⟨rs, hm⟩
    · unfold load_database
      rw [hm]
      exact h0
    · unfold load_database
      rw [hm]
      exact h0
  refine ⟨hload, ?_⟩
  intro p hv
  constructor
  · simp [add_patient, hv]
  · simp [add_patient, hv, save_database, hload, dinsert]

/-- Witness for the amended C3 at a concrete unparseable document. -/
theorem load_malformed_amended_witness :
    (load_database (freshDb Doc.notArray)).patients = [] ∧
      (add_patient (load_database (freshDb Doc.notArray)) pw).1 = true := by
  have h := load_malformed_amended (freshDb Doc.notArray) rfl (Or.inl rfl)
  exact ⟨h.1, (h.2 pw (by decide)).1⟩

/-! Key invariant of the patient dict (claim C9). -/

/-- States reachable from a freshly constructed store by the operations
add_patient, load_database and load_from_csv. -/
inductive Reachable : CancerGenomicsDatabase → Prop where
  | init (d : Doc) : Reachable (freshDb d)
  | add {db : CancerGenomicsDatabase} (p : PatientRecord) :
      Reachable db → Reachable (add_patient db p).2
  | load {db : CancerGenomicsDatabase} :
      Reachable db → Reachable (load_database db)
  | csv {db : CancerGenomicsDatabase} (t : CsvTable) :
      Reachable db → Reachable (load_from_csv db t)

theorem keysMatch_dinsert {m : List (String × PatientRecord)} {k : String}
    {v : PatientRecord} (h : ∀ kv ∈ m, kv.1 = kv.2.patient_id)
    (hv : k = v.patient_id) :
    ∀ kv ∈ dinsert m k v, kv.1 = kv.2.patient_id := by
  intro kv hkv
  unfold dinsert at hkv
  by_cases hmem : (m.any (fun kv => kv.1 = k)) = true
  · rw [if_pos hmem] at hkv
    rcases List.mem_map.mp hkv with ⟨a, ha, hae⟩
    by_cases hak : a.1 = k
    · rw [if_pos hak] at hae
      rw [← hae]
      exact hv
    · rw [if_neg hak] at hae
      rw [← hae]
      exact h a ha
  · rw [if_neg hmem] at hkv
    rcases List.mem_append.mp hkv with hin | hin
    · exact h kv hin
    · rw [List.mem_singleton] at hin
      rw [hin]
      exact hv

theorem foldl_patient_id {α : Type} (step : PatientRecord → α → PatientRecord)
    (hstep : ∀ p a, (step p a).patient_id = p.patient_id) :
    ∀ (l : List α) (p : PatientRecord),
      (l.foldl step p).patient_id = p.patient_id := by
  intro l
  induction l with
  | nil => intro p; rfl
  | cons a rest ih =>
    intro p
    rw [List.foldl_cons, ih]
    exact hstep p a

theorem patientOfSaved_pid (sp : SavedPatient) :
    (patientOfSaved sp).patient_id = sp.patient_id := by
  unfold patientOfSaved
  exact (foldl_patient_id (fun p gd => add_gene_sequence p (geneOfSaved gd))
    (fun p gd => rfl) (sp.gene_sequences.getD []) _).trans rfl

theorem patientFromRow_pid (cols : List String) (row : List (Option String))
    (pid : String) : (patientFromRow cols row pid).patient_id = pid := by
  unfold patientFromRow
  refine (foldl_patient_id _ ?_ _ _).trans rfl
  intro p cell
  by_cases hres : cell.1 ∈ reservedColumns
  · simp [hres]
  · cases hc : cell.2 with
    | none => simp [hres, hc]
    | some v => simp [hres, hc, add_gene_sequence]

theorem loadLoop_keysMatch :
    ∀ (rs : List RecEntry) (ps : List (String × PatientRecord)),
      (∀ kv ∈ ps, kv.1 = kv.2.patient_id) →
      ∀ kv ∈ loadLoop rs ps, kv.1 = kv.2.patient_id := by
  intro rs
  induction rs with
  | nil => intro ps h; exact h
  | cons r rest ih =>
    intro ps h
    cases r with
    | bad => exact h
    | good sp => exact ih _ (keysMatch_dinsert h (patientOfSaved_pid sp).symm)

theorem csvLoop_keysMatch (cols : List String) :
    ∀ (rows : List (List (Option String))) (i : Nat)
      (ps : List (String × PatientRecord)),
      (∀ kv ∈ ps, kv.1 = kv.2.patient_id) →
      ∀ kv ∈ csvLoop cols i rows ps, kv.1 = kv.2.patient_id := by
  intro rows
  induction rows with
  | nil => intro i ps h; exact h
  | cons row rest ih =>
    intro i ps h
    exact ih (i + 1) _ (keysMatch_dinsert h (patientFromRow_pid cols row (Nat.repr i)).symm)

theorem add_patient_keysMatch (db : CancerGenomicsDatabase) (p : PatientRecord)
    (h : ∀ kv ∈ db.patients, kv.1 = kv.2.patient_id) :
    ∀ kv ∈ (add_patient db p).2.patients, kv.1 = kv.2.patient_id := by
  unfold add_patient
  by_cases hv : validate_patient_data p = true
  · rw [if_pos hv]
    exact keysMatch_dinsert h rfl
  · rw [if_neg hv]
    exact h

theorem load_database_keysMatch (db : CancerGenomicsDatabase)
    (h : ∀ kv ∈ db.patients, kv.1 = kv.2.patient_id) :
    ∀ kv ∈ (load_database db).patients, kv.1 = kv.2.patient_id := by
  unfold load_database
  cases hd : db.disk with
  | absent => exact h
  | notArray => exact h
  | arr rs => exact loadLoop_keysMatch rs db.patients h

theorem load_from_csv_keysMatch (db : CancerGenomicsDatabase) (t : CsvTable)
    (h : ∀ kv ∈ db.patients, kv.1 = kv.2.patient_id) :
    ∀ kv ∈ (load_from_csv db t).patients, kv.1 = kv.2.patient_id := by
  unfold load_from_csv save_database
  exact csvLoop_keysMatch t.columns t.rows 0 db.patients h

/-- Claim C9: in every store state reachable from a fresh store by
add_patient, load_database and bulk import, every key of the patient
mapping equals the patient identifier of the record stored under it. -/
theorem store_key_invariant (db : CancerGenomicsDatabase) (h : Reachable db) :
    ∀ kv ∈ db.patients, kv.1 = kv.2.patient_id := by
  induction h with
  | init d => intro kv hkv; simp [freshDb] at hkv
  | add p _ ih => exact add_patient_keysMatch _ p ih
  | load _ ih => exact load_database_keysMatch _ ih
  | csv t _ ih => exact load_from_csv_keysMatch _ t ih

/-- Witness for C9 at the reachable state obtained by one add_patient. -/
theorem store_key_invariant_witness :
    ((add_patient (freshDb Doc.absent) pw).2.patients.all
      (fun kv => kv.1 = kv.2.patient_id)) = true := by
  have h := store_key_invariant (add_patient (freshDb Doc.absent) pw).2
    (Reachable.add pw (Reachable.init Doc.absent))
  exact List.all_eq_true.mpr (fun kv hkv => decide_eq_true (h kv hkv))

/-! Merge semantics of load_database (claim C10). -/

theorem dlookup_loadLoop_not_mem :
    ∀ (sps : List SavedPatient) (acc : List (String × PatientRecord)) (k : String),
      k ∉ sps.map SavedPatient.patient_id →
      dlookup k (loadLoop (sps.map RecEntry.good) acc) = dlookup k acc := by
  intro sps
  induction sps with
  | nil => intro acc k _; rfl
  | cons sp rest ih =>
    intro acc k hk
    rw [List.map_cons] at hk
    have hk1 : k ≠ sp.patient_id := fun hc => hk (hc ▸ List.mem_cons_self _ _)
    have hk2 : k ∉ rest.map SavedPatient.patient_id :=
      fun hc => hk (List.mem_cons_of_mem _ hc)
    show dlookup k (loadLoop (rest.map RecEntry.good)
      (dinsert acc sp.patient_id (patientOfSaved sp))) = _
    rw [ih _ k hk2, dlookup_dinsert, if_neg hk1]

theorem dlookup_loadLoop_mem :
    ∀ (sps : List SavedPatient) (acc : List (String × PatientRecord))
      (sp : SavedPatient),
      (sps.map SavedPatient.patient_id).Nodup → sp ∈ sps →
      dlookup sp.patient_id (loadLoop (sps.map RecEntry.good) acc) =
        some (patientOfSaved sp) := by
  intro sps
  induction sps with
  | nil => intro acc sp _ hm; simp at hm
  | cons a rest ih =>
    intro acc sp hnd hm
    rw [List.map_cons, List.nodup_cons] at hnd
    show dlookup sp.patient_id (loadLoop (rest.map RecEntry.good)
      (dinsert acc a.patient_id (patientOfSaved a))) = _
    rcases List.mem_cons.mp hm with h1 | h2
    · subst h1
      rw [dlookup_loadLoop_not_mem rest _ sp.patient_id hnd.1]
      rw [dlookup_dinsert, if_pos rfl]
    · exact ih _ sp hnd.2 h2

/-- Claim C10: load_database merges the persisted document into the
current patient mapping rather than replacing it: a patient already in
the store whose identifier is absent from the document keeps its entry
unchanged and stays present, while an identifier occurring in the
document ends up mapped to the reconstruction of the document record. -/
theorem load_database_merges (db : CancerGenomicsDatabase)
    (sps : List SavedPatient)
    (hdisk : db.disk = Doc.arr (sps.map RecEntry.good))
    (hnd : (db.patients.map Prod.fst).Nodup)
    (hnds : (sps.map SavedPatient.patient_id).Nodup) :
    (∀ k, k ∉ sps.map SavedPatient.patient_id →
      dlookup k (load_database db).patients = dlookup k db.patients) ∧
    (∀ kv ∈ db.patients, kv.1 ∉ sps.map SavedPatient.patient_id →
      kv ∈ (load_database db).patients) ∧
    (∀ sp ∈ sps, dlookup sp.patient_id (load_database db).patients =
      some (patientOfSaved sp)) := by
  have hload : (load_database db).patients =
      loadLoop (sps.map RecEntry.good) db.patients := by
    unfold load_database
    rw [hdisk]
  refine ⟨?_, ?_, ?_⟩
  · intro k hk
    rw [hload]
    exact dlookup_loadLoop_not_mem sps db.patients k hk
  · intro kv hkv hk
    have h1 : dlookup kv.1 db.patients = some kv.2 := mem_dlookup hnd hkv
    have h2 : dlookup kv.1 (load_database db).patients = some kv.2 := by
      rw [hload, dlookup_loadLoop_not_mem sps db.patients kv.1 hk]
      exact h1
    exact dlookup_eq_some_mem h2
  · intro sp hsp
    rw [hload]
    exact dlookup_loadLoop_mem sps db.patients sp hnds hsp

/-- Sample saved patient living only in the persisted document. -/
def spw2 : SavedPatient :=
  { patient_id := "P9", name := some "C", age := some (7 : Int),
    diagnosis := some "X", gene_sequences := some [] }

/-- Sample store whose mapping is non-empty before a load. -/
def dbw10 : CancerGenomicsDatabase :=
  { patients := [("P1", pw)], disk := Doc.arr [RecEntry.good spw2] }

/-- Witness for C10: the in-memory patient absent from the document
survives the load unchanged, and the document patient is loaded. -/
theorem load_database_merges_witness :
    dlookup "P1" (load_database dbw10).patients = some pw ∧
      dlookup "P9" (load_database dbw10).patients = some (patientOfSaved spw2) := by
  have h := load_database_merges dbw10 [spw2] rfl (by decide) (by decide)
  refine ⟨?_, h.2.2 spw2 (by decide)⟩
  have h1 := h.1 "P1" (by decide)
  rw [h1]
  decide

/-! Bulk import from a tabular source (claim C7). -/

/-- Specification-side description of the gene records attached to one
row: every non-reserved column with a non-missing cell contributes a
gene record with empty sequence and the stringified cell as status. -/
def rowGenesSpec (cols : List String) (row : List (Option String)) :
    List (String × GeneSequence) :=
  (cols.zip row).filterMap fun cell =>
    if cell.1 ∈ reservedColumns then none
    else
      match cell.2 with
      | none => none
      | some v =>
        some (cell.1,
          { gene_id := cell.1, sequence := "", mutation_status := some v })

/-- Specification-side description of the patient synthesized from one
row: stringified row index as identifier, default scalar fields, gene
records as in rowGenesSpec. -/
def rowPatientSpec (cols : List String) (row : List (Option String))
    (pid : String) : PatientRecord :=
  { patient_id := pid, name := "Unknown", age := 0, diagnosis := "Unknown",
    gene_sequences := rowGenesSpec cols row }

/-- Specification-side description of the whole import result: one
patient per row, keyed and identified by the stringified row index. -/
def csvResultSpecFrom (cols : List String) :
    Nat → List (List (Option String)) → List (String × PatientRecord)
  | _, [] => []
  | i, row :: rest =>
    (Nat.repr i, rowPatientSpec cols row (Nat.repr i))
      :: csvResultSpecFrom cols (i + 1) rest

theorem zip_map_fst_sublist {α β : Type} :
    ∀ (l1 : List α) (l2 : List β), ((l1.zip l2).map Prod.fst).Sublist l1 := by
  intro l1
  induction l1 with
  | nil => intro l2; simp
  | cons a l1 ih =>
    intro l2
    cases l2 with
    | nil => simp
    | cons b l2 =>
      rw [List.zip_cons_cons, List.map_cons]
      exact List.Sublist.cons₂ a (ih l2)

theorem rowFold_genes :
    ∀ (l : List (String × Option String)) (p : PatientRecord),
      (l.map Prod.fst).Nodup →
      (∀ cell ∈ l, cell.1 ∉ p.gene_sequences.map Prod.fst) →
      l.foldl (fun q cell =>
        if cell.1 ∈ reservedColumns then q
        else
          match cell.2 with
          | none => q
          | some v =>
            add_gene_sequence q
              { gene_id := cell.1, sequence := "", mutation_status := some v }) p =
      { p with gene_sequences :=
          (p.gene_sequences ++ l.filterMap (fun cell =>
            if cell.1 ∈ reservedColumns then none
            else
              match cell.2 with
              | none => none
              | some v =>
                some (cell.1,
                  { gene_id := cell.1, sequence := "", mutation_status := some v }))) } := by
  intro l
  induction l with
  | nil =>
    intro p _ _
    rw [List.foldl_nil, List.filterMap_nil, List.append_nil]
  | cons cell rest ih =>
    intro p hnd hfresh
    rw [List.map_cons, List.nodup_cons] at hnd
    rw [List.foldl_cons, List.filterMap_cons]
    by_cases hres : cell.1 ∈ reservedColumns
    · simp only [if_pos hres]
      exact ih p hnd.2 (fun c hc => hfresh c (List.mem_cons_of_mem _ hc))
    · simp only [if_neg hres]
      cases hc : cell.2 with
      | none =>
        exact ih p hnd.2 (fun c hcm => hfresh c (List.mem_cons_of_mem _ hcm))
      | some v =>
        have hfr : cell.1 ∉ p.gene_sequences.map Prod.fst :=
          hfresh cell (List.mem_cons_self _ _)
        show rest.foldl _ (add_gene_sequence p
          { gene_id := cell.1, sequence := "", mutation_status := some v }) = _
        have hstep : add_gene_sequence p
            { gene_id := cell.1, sequence := "", mutation_status := some v } =
            { p with gene_sequences := p.gene_sequences ++
              [(cell.1,
                { gene_id := cell.1, sequence := "", mutation_status := some v })] } := by
          unfold add_gene_sequence
          rw [dinsert_of_not_mem _ hfr]
        rw [hstep]
        rw [ih _ hnd.2 ?_]
        · simp [List.append_assoc]
        · intro c hcm
          rw [List.map_append, List.mem_append]
          rintro (hin | hin)
          · exact hfresh c (List.mem_cons_of_mem _ hcm) hin
          · simp only [List.map_cons, List.map_nil, List.mem_singleton] at hin
            exact hnd.1 (hin ▸ List.mem_map_of_mem Prod.fst hcm)

theorem patientFromRow_eq_spec (cols : List String) (row : List (Option String))
    (pid : String) (hnd : cols.Nodup) :
    patientFromRow cols row pid = rowPatientSpec cols row pid := by
  unfold patientFromRow rowPatientSpec rowGenesSpec
  rw [rowFold_genes (cols.zip row) (PatientRecord.mk4 pid)
    ((zip_map_fst_sublist cols row).nodup hnd) (by intro c _; simp [PatientRecord.mk4])]
  simp [PatientRecord.mk4]

theorem csvLoop_eq_spec (cols : List String) (hndc : cols.Nodup) :
    ∀ (rows : List (List (Option String))) (i : Nat)
      (acc : List (String × PatientRecord)),
      (∀ k ∈ acc.map Prod.fst, ∀ j, i ≤ j → k ≠ Nat.repr j) →
      csvLoop cols i rows acc = acc ++ csvResultSpecFrom cols i rows := by
  intro rows
  induction rows with
  | nil => intro i acc _; simp [csvLoop, csvResultSpecFrom]
  | cons row rest ih =>
    intro i acc h
    have hfr : Nat.repr i ∉ acc.map Prod.fst :=
      fun hc => h _ hc i (Nat.le_refl i) rfl
    show csvLoop cols (i + 1) rest
      (dinsert acc (Nat.repr i) (patientFromRow cols row (Nat.repr i))) = _
    rw [dinsert_of_not_mem _ hfr]
    rw [ih (i + 1) (acc ++ [(Nat.repr i, patientFromRow cols row (Nat.repr i))]) ?_]
    · rw [patientFromRow_eq_spec cols row (Nat.repr i) hndc]
      show _ = acc ++ ((Nat.repr i, rowPatientSpec cols row (Nat.repr i))
        :: csvResultSpecFrom cols (i + 1) rest)
      simp [List.append_assoc]
    · intro k hk j hij
      rw [List.map_append, List.mem_append] at hk
      rcases hk with hk | hk
      · exact h k hk j (by omega)
      · simp only [List.map_cons, List.map_nil, List.mem_singleton] at hk
        subst hk
        intro hc
        have := nat_repr_injective hc
        omega

/-- Claim C7: bulk import of a parsed table into a fresh store creates
exactly one patient per row, keyed by the stringified zero-based row
index, with default name, age and diagnosis and one gene record for
every non-reserved column whose cell is non-missing (empty sequence,
stringified cell value as mutation status, missing cells skipped), and
persists the resulting store. -/
theorem load_from_csv_spec (t : CsvTable) (d : Doc) (hnd : t.columns.Nodup) :
    (load_from_csv (freshDb d) t).patients =
      csvResultSpecFrom t.columns 0 t.rows ∧
    (load_from_csv (freshDb d) t).disk = Doc.arr
      ((serializePatients (csvResultSpecFrom t.columns 0 t.rows)).map
        RecEntry.good) := by
  have hpat : csvLoop t.columns 0 t.rows [] =
      csvResultSpecFrom t.columns 0 t.rows := by
    rw [csvLoop_eq_spec t.columns hnd t.rows 0 [] (by intro k hk; simp at hk)]
    rw [List.nil_append]
  constructor
  · show csvLoop t.columns 0 t.rows [] = _
    exact hpat
  · show Doc.arr ((serializePatients (csvLoop t.columns 0 t.rows [])).map
      RecEntry.good) = _
    rw [hpat]

/-- The two-row single-column table of the claim C7 example. -/
def tw : CsvTable :=
  { columns := ["BRCA1"], rows := [[some "Pathogenic"], [none]] }

/-- Witness for C7: importing the example table yields patients 0 and 1,
patient 0 carrying the single BRCA1 record and patient 1 none. -/
theorem load_from_csv_spec_witness :
    (load_from_csv (freshDb Doc.absent) tw).patients =
      [("0", { patient_id := "0", name := "Unknown", age := 0,
               diagnosis := "Unknown",
               gene_sequences := [("BRCA1",
                 { gene_id := "BRCA1", sequence := "",
                   mutation_status := some "Pathogenic" })] }),
       ("1", { patient_id := "1", name := "Unknown", age := 0,
               diagnosis := "Unknown", gene_sequences := [] })] := by
  have h := (load_from_csv_spec tw Doc.absent (by decide)).1
  rw [h]
  decide

example : validate_sequence { gene_id := "g", sequence := "atCG", mutation_status := none } = true := by decide
example : validate_sequence { gene_id := "g", sequence := "ATXG", mutation_status := none } = false := by decide
example : detect_mutation { gene_id := "g", sequence := "ATGG", mutation_status := none } "ATCG" = some "C3G" := by decide
example : detect_mutation { gene_id := "g", sequence := "ATCG", mutation_status := none } "ATCG" = none := by decide
example : detect_mutation { gene_id := "g", sequence := "AT", mutation_status := none } "ATCG" = some "Length mismatch with reference sequence" := by decide

end Genomics
